import Mathlib

/-!
Shallow embedding of the OpalTravelCheckBalence script (src/main.py): the
parsing-and-aggregation pipeline (parse_travel_data, calculate_totals,
get_daily_totals, and main's top-up computation), together with proofs of the
specification's claims about it.

Text fields of the HTML tree are modelled as the strings the xpath queries of
parse_travel_data extract (`Option String`: none when the query matches no
node).  Monetary amounts are modelled as exact rationals.  Date/time parsing
and formatting model CPython's strptime/strftime with the C locale on a glibc
platform (where %Y does not zero-pad years below 1000).
-/

namespace Opal

/-- Characters Python str.strip removes (the ASCII whitespace characters). -/
def isWsChar (c : Char) : Bool :=
  c.toNat = 32 || c.toNat = 9 || c.toNat = 10 || c.toNat = 13 || c.toNat = 11 || c.toNat = 12

/-- Python str.strip() on the character list: drop leading and trailing whitespace. -/
def stripChars (l : List Char) : List Char :=
  ((l.dropWhile isWsChar).reverse.dropWhile isWsChar).reverse

/-- Python str.strip(). -/
def pyStrip (s : String) : String := ⟨stripChars s.data⟩

/-- ASCII digit test (the digits accepted by the strptime directives and by float()). -/
def isDigitChar (c : Char) : Bool := 48 ≤ c.toNat && c.toNat ≤ 57

/-- Does the pattern occur at the head of the list? -/
def startsWithSeg : List Char → List Char → Bool
  | [], _ => true
  | _ :: _, [] => false
  | p :: ps, c :: cs => p == c && startsWithSeg ps cs

/-- Does the pattern occur contiguously anywhere in the list? -/
def containsSeg (pat : List Char) : List Char → Bool
  | [] => startsWithSeg pat []
  | c :: cs => startsWithSeg pat (c :: cs) || containsSeg pat cs

/-- Python's `pat in s` on strings (case-sensitive substring test). -/
def strContainsSub (s pat : String) : Bool := containsSeg pat.data s.data

/-- Big-endian decimal digit characters of `n` (none for 0); the first argument is
structural fuel, adequate whenever it is at least `n`. -/
def natDigitsAux : Nat → Nat → List Char
  | _, 0 => []
  | 0, _ + 1 => []
  | fuel + 1, n + 1 => natDigitsAux fuel ((n + 1) / 10) ++ [Nat.digitChar ((n + 1) % 10)]

/-- Big-endian decimal digit characters of `n` (empty for 0). -/
def natDigits (n : Nat) : List Char := natDigitsAux n n

/-- Numeric value of an ASCII digit character. -/
def digitVal (c : Char) : Nat := c.toNat - 48

/-- Value of a big-endian list of ASCII digit characters. -/
def digitsToNat (l : List Char) : Nat := l.foldl (fun a c => a * 10 + digitVal c) 0

/-- A calendar date as carried by the script's datetime values (times are always
midnight in this pipeline). -/
structure Date where
  year : Nat
  month : Nat
  day : Nat
deriving DecidableEq, Repr

/-- Gregorian leap-year rule (as in Python's datetime). -/
def isLeap (y : Nat) : Bool := (y % 4 == 0 && y % 100 != 0) || y % 400 == 0

/-- Days in a month of a given year (0 for an out-of-range month number). -/
def daysInMonth (y m : Nat) : Nat :=
  match m with
  | 1 => 31 | 2 => if isLeap y then 29 else 28 | 3 => 31 | 4 => 30 | 5 => 31 | 6 => 30
  | 7 => 31 | 8 => 31 | 9 => 30 | 10 => 31 | 11 => 30 | 12 => 31 | _ => 0

/-- Is the date one that datetime can represent (MINYEAR 1 to MAXYEAR 9999)? -/
def Date.validB (d : Date) : Bool :=
  decide (1 ≤ d.year ∧ d.year ≤ 9999 ∧ 1 ≤ d.month ∧ d.month ≤ 12 ∧
          1 ≤ d.day ∧ d.day ≤ daysInMonth d.year d.month)

/-- Days in the years before year `y` (proleptic Gregorian). -/
def daysBeforeYear (y : Nat) : Nat :=
  365 * (y - 1) + (y - 1) / 4 - (y - 1) / 100 + (y - 1) / 400

/-- Days in the months of year `y` before month `m`. -/
def daysBeforeMonth (y m : Nat) : Nat :=
  (List.range (m - 1)).foldl (fun a i => a + daysInMonth y (i + 1)) 0

/-- Python date.toordinal(): day count with 0001-01-01 as ordinal 1. -/
def Date.toOrdinal (d : Date) : Nat := daysBeforeYear d.year + daysBeforeMonth d.year d.month + d.day

/-- Python date.weekday(): Monday = 0 .. Sunday = 6. -/
def pyWeekday (d : Date) : Nat := (d.toOrdinal - 1) % 7

/-- strftime %A for Python weekday numbers (C locale). -/
def weekdayName (n : Nat) : String :=
  match n with
  | 0 => "Monday" | 1 => "Tuesday" | 2 => "Wednesday" | 3 => "Thursday"
  | 4 => "Friday" | 5 => "Saturday" | _ => "Sunday"

/-- strftime %b month abbreviation (C locale; "Jan" is month 1). -/
def monthAbbrev (m : Nat) : String :=
  match m with
  | 1 => "Jan" | 2 => "Feb" | 3 => "Mar" | 4 => "Apr" | 5 => "May" | 6 => "Jun"
  | 7 => "Jul" | 8 => "Aug" | 9 => "Sep" | 10 => "Oct" | 11 => "Nov" | _ => "Dec"

/-- The full weekday names the %A directive accepts. -/
def weekdayNames : List String :=
  ["Monday", "Tuesday", "Wednesday", "Thursday", "Friday", "Saturday", "Sunday"]

/-- The month abbreviations the %b directive accepts. -/
def monthAbbrevs : List String :=
  ["Jan", "Feb", "Mar", "Apr", "May", "Jun", "Jul", "Aug", "Sep", "Oct", "Nov", "Dec"]

/-- datetime `a <= b` on the dates this pipeline carries (all times are midnight):
lexicographic on (year, month, day). -/
def dateLex (a b : Date) : Prop :=
  a.year < b.year ∨ (a.year = b.year ∧ (a.month < b.month ∨ (a.month = b.month ∧ a.day ≤ b.day)))

/-- datetime `a < b` for midnight datetimes. -/
def dateLexLt (a b : Date) : Prop :=
  a.year < b.year ∨ (a.year = b.year ∧ (a.month < b.month ∨ (a.month = b.month ∧ a.day < b.day)))

instance decDateLex (a b : Date) : Decidable (dateLex a b) := by
  unfold dateLex; exact inferInstance

instance decDateLexLt (a b : Date) : Decidable (dateLexLt a b) := by
  unfold dateLexLt; exact inferInstance

/-- Boolean form of datetime `a <= b`. -/
def dateLeB (a b : Date) : Bool := decide (dateLex a b)

/-- Boolean form of datetime `a < b`. -/
def dateLtB (a b : Date) : Bool := decide (dateLexLt a b)

/-- strftime %d: the day zero-padded to two digits. -/
def twoDigitChars (n : Nat) : List Char := if n < 10 then '0' :: natDigits n else natDigits n

/-- Characters of strftime("%A %d %b %Y") for a date.  On the target platform %Y
renders the year in plain decimal without zero-padding (glibc behaviour). -/
def formatDateChars (d : Date) : List Char :=
  (weekdayName (pyWeekday d)).data ++
    ' ' :: (twoDigitChars d.day ++ ' ' :: ((monthAbbrev d.month).data ++ ' ' :: natDigits d.year))

/-- strftime("%A %d %b %Y"): the canonical ledger date label. -/
def formatDate (d : Date) : String := ⟨formatDateChars d⟩

/-- Split a character list into maximal whitespace-free tokens; `cur` holds the
characters of the token in progress, reversed. -/
def splitWsAux : List Char → List Char → List (List Char)
  | cur, [] => if cur.isEmpty then [] else [cur.reverse]
  | cur, c :: rest =>
    if isWsChar c then
      if cur.isEmpty then splitWsAux [] rest else cur.reverse :: splitWsAux [] rest
    else splitWsAux (c :: cur) rest

/-- The whitespace-separated tokens of a character list. -/
def splitWs (l : List Char) : List (List Char) := splitWsAux [] l

/-- Lower-cased characters, for the case-insensitive strptime name matching. -/
def lcChars (l : List Char) : List Char := l.map Char.toLower

/-- Case-insensitive token match (strptime compiles its regex with IGNORECASE). -/
def matchesName (tok : List Char) (name : String) : Bool := lcChars tok == lcChars name.data

/-- Index (from the given start) of the first name the token matches. -/
def findNameIdx : List String → Nat → List Char → Option Nat
  | [], _, _ => none
  | nm :: rest, i, tok => if matchesName tok nm then some i else findNameIdx rest (i + 1) tok

/-- The %d directive: one or two digits with value 1..31. -/
def parseDayTok (tok : List Char) : Option Nat :=
  if tok.all isDigitChar ∧ (tok.length = 1 ∨ tok.length = 2) then
    if 1 ≤ digitsToNat tok ∧ digitsToNat tok ≤ 31 then some (digitsToNat tok) else none
  else none

/-- The %Y directive: exactly four digits. -/
def parseYearTok (tok : List Char) : Option Nat :=
  if tok.all isDigitChar ∧ tok.length = 4 then some (digitsToNat tok) else none

/-- Is the first character whitespace? -/
def headIsWs : List Char → Bool
  | [] => false
  | c :: _ => isWsChar c

/-- datetime.strptime(s, "%A %d %b %Y") on a character list, reduced to the date
it constructs.  The weekday name must be one of the seven full names
(case-insensitively) but is otherwise ignored; a literal space in the format
matches any run of whitespace; the whole string must be consumed (so
leading/trailing whitespace fails); the datetime constructor then requires
year ≥ 1 and a day that exists in the month. -/
def parseDateChars (l : List Char) : Option Date :=
  if headIsWs l ∨ headIsWs l.reverse then none
  else
    match splitWs l with
    | [w, dTok, mTok, yTok] =>
      if weekdayNames.any (fun nm => matchesName w nm) then
        match parseDayTok dTok, findNameIdx monthAbbrevs 1 mTok, parseYearTok yTok with
        | some day, some month, some year =>
          if 1 ≤ year ∧ day ≤ daysInMonth year month then some ⟨year, month, day⟩ else none
        | _, _, _ => none
      else none
    | _ => none

/-- datetime.strptime(s, "%A %d %b %Y"), reduced to the date it constructs. -/
def parseDate (s : String) : Option Date := parseDateChars s.data

/-- The %H directive: one or two digits with value 0..23. -/
def parseHourTok (tok : List Char) : Option Nat :=
  if tok.all isDigitChar ∧ (tok.length = 1 ∨ tok.length = 2) ∧ digitsToNat tok ≤ 23 then
    some (digitsToNat tok)
  else none

/-- The %M directive: one or two digits with value 0..59. -/
def parseMinTok (tok : List Char) : Option Nat :=
  if tok.all isDigitChar ∧ (tok.length = 1 ∨ tok.length = 2) ∧ digitsToNat tok ≤ 59 then
    some (digitsToNat tok)
  else none

/-- Split on the colon character, keeping empty parts. -/
def splitCols : List Char → List (List Char)
  | [] => [[]]
  | c :: rest =>
    if c = ':' then [] :: splitCols rest
    else
      match splitCols rest with
      | [] => [[c]]
      | t :: ts => (c :: t) :: ts

/-- datetime.strptime(s, "%H:%M"), reduced to minutes since midnight. -/
def parseTime (s : String) : Option Nat :=
  match splitCols s.data with
  | [h, m] =>
    match parseHourTok h, parseMinTok m with
    | some hh, some mm => some (hh * 60 + mm)
    | _, _ => none
  | _ => none

/-- Exact value of a parsed decimal literal: sign, integer digits, fraction digits,
exponent sign and exponent digits value, as the reduced fraction
±(digits of ip++fp) · 10^±e / 10^(number of fraction digits). -/
def decValue (neg : Bool) (ip fp : List Char) (eneg : Bool) (e : Nat) : ℚ :=
  let n : Int := Int.ofNat (digitsToNat (ip ++ fp))
  let n := if neg then -n else n
  if eneg then mkRat n (10 ^ (fp.length + e))
  else mkRat (n * Int.ofNat (10 ^ e)) (10 ^ fp.length)

/-- Exponent part of a float literal: optional sign then at least one digit. -/
def pyFloatExp (neg : Bool) (ip fp : List Char) (r : List Char) : Option ℚ :=
  match r with
  | '-' :: t => if t ≠ [] ∧ t.all isDigitChar then some (decValue neg ip fp true (digitsToNat t)) else none
  | '+' :: t => if t ≠ [] ∧ t.all isDigitChar then some (decValue neg ip fp false (digitsToNat t)) else none
  | t => if t ≠ [] ∧ t.all isDigitChar then some (decValue neg ip fp false (digitsToNat t)) else none

/-- Mantissa part of a float literal, after the sign: digits, optional point and
fraction digits, optional exponent introduced by e or E; at least one mantissa
digit is required. -/
def pyFloatBody (neg : Bool) (l : List Char) : Option ℚ :=
  let ip := l.takeWhile isDigitChar
  let r2 := l.dropWhile isDigitChar
  let fp := match r2 with
    | '.' :: r => r.takeWhile isDigitChar
    | _ => []
  let r3 := match r2 with
    | '.' :: r => r.dropWhile isDigitChar
    | r => r
  if ip = [] ∧ fp = [] then none
  else
    match r3 with
    | [] => some (decValue neg ip fp false 0)
    | 'e' :: r4 => pyFloatExp neg ip fp r4
    | 'E' :: r4 => pyFloatExp neg ip fp r4
    | _ => none

/-- Python float() on a string, as an exact rational; none models ValueError.
Accepts an optional sign and a decimal literal with optional fraction and
exponent.  (inf/nan and underscore digit separators are not modelled; the claims
under study never depend on them.) -/
def pyFloat (s : String) : Option ℚ :=
  match s.data with
  | '-' :: r => pyFloatBody true r
  | '+' :: r => pyFloatBody false r
  | r => pyFloatBody false r

/-- One normalized activity record as stored by parse_travel_data. -/
structure Activity where
  time : String
  start_point : String
  end_point : String
  fare : ℚ
deriving DecidableEq, Repr

/-- The texts the xpath queries of parse_travel_data find for one activity node
(first matched text node of each field; none when the query matches nothing). -/
structure RawActivity where
  timeText : Option String
  fromText : Option String
  toText : Option String
  fareText : Option String
deriving DecidableEq, Repr

/-- One activity-by-date container: the first text of its activity-date node (none
when absent) and its activity nodes in document order. -/
structure DateContainer where
  dateText : Option String
  activities : List RawActivity
deriving DecidableEq, Repr

/-- Python s.replace("$", ""): drop every dollar sign. -/
def removeDollar (s : String) : String := ⟨s.data.filter (fun c => !(c == '$'))⟩

/-- `x[0].strip() if x else dflt`: strip the first matched text, or the default. -/
def defaultStr (o : Option String) (dflt : String) : String :=
  match o with
  | some s => pyStrip s
  | none => dflt

/-- The inner activity loop of parse_travel_data for one node: per-field defaulting,
fare parsing (error when float() raises on a present fare text), and the
top-up normalization rule. -/
def extractActivity (a : RawActivity) : Except Unit Activity :=
  let time_str := defaultStr a.timeText "00:00"
  let start0 := defaultStr a.fromText "Unknown"
  let end0 := defaultStr a.toText "Unknown"
  match (match a.fareText with
         | some f => pyFloat (removeDollar (pyStrip f))
         | none => some 0) with
  | none => .error ()
  | some fare =>
    if strContainsSub start0 "Top up" then .ok ⟨time_str, "Top Up", "Opal Travel App", fare⟩
    else .ok ⟨time_str, start0, end0, fare⟩

/-- All activity nodes of one container, in document order. -/
def extractActivities : List RawActivity → Except Unit (List Activity)
  | [] => .ok []
  | a :: rest => do
    let x ← extractActivity a
    let xs ← extractActivities rest
    pure (x :: xs)

/-- Sort key of the per-day sort: the parsed time (only used where every time parses). -/
def timeKey (a : Activity) : Nat := (parseTime a.time).getD 0

/-- Comparison by parsed time-of-day. -/
def timeLe (a b : Activity) : Prop := timeKey a ≤ timeKey b

instance decTimeLe : DecidableRel timeLe :=
  fun a b => inferInstanceAs (Decidable (timeKey a ≤ timeKey b))

/-- `activities.sort(key=lambda x: datetime.strptime(x["time"], "%H:%M"))`: raises
when some stored time fails to parse; otherwise a stable ascending sort by parsed
time (Python's sort is stable; modelled by insertion sort, which is stable). -/
def pySortByTime (l : List Activity) : Except Unit (List Activity) :=
  if l.all (fun a => (parseTime a.time).isSome) then .ok (l.insertionSort timeLe) else .error ()

/-- First-match association-list lookup (Python dict access). -/
def dictFind {κ α : Type} [DecidableEq κ] : List (κ × α) → κ → Option α
  | [], _ => none
  | (k, v) :: rest, key => if k = key then some v else dictFind rest key

/-- Python `d[k] = v`: overwrite in place when the key is present, else append
(dicts preserve insertion order). -/
def dictSet {κ α : Type} [DecidableEq κ] : List (κ × α) → κ → α → List (κ × α)
  | [], key, v => [(key, v)]
  | (k, w) :: rest, key, v => if k = key then (key, v) :: rest else (k, w) :: dictSet rest key v

/-- The date label of a container: first text of the activity-date node, stripped
and parsed; none both when the node is absent and when strptime raises. -/
def containerDate (c : DateContainer) : Option Date :=
  match c.dateText with
  | some t => parseDate (pyStrip t)
  | none => none

/-- The date-container loop of parse_travel_data, building the travel_data dict:
a container whose date label is missing or unparseable is skipped whole; an
activity whose fare or time text cannot be parsed raises out of the loop. -/
def buildDictAux : List DateContainer → List (Date × List Activity) →
    Except Unit (List (Date × List Activity))
  | [], acc => .ok acc
  | c :: rest, acc =>
    match containerDate c with
    | none => buildDictAux rest acc
    | some d =>
      match extractActivities c.activities with
      | .error e => .error e
      | .ok raw =>
        match pySortByTime raw with
        | .error e => .error e
        | .ok day => buildDictAux rest (dictSet acc d day)

/-- The travel_data dict of parse_travel_data (keys in insertion order). -/
def travelDataDict (t : List DateContainer) : Except Unit (List (Date × List Activity)) :=
  buildDictAux t []

/-- Descending-date comparison on dict entries, for sorted(keys, reverse=True). -/
def dateDescPair (a b : Date × List Activity) : Prop := dateLex b.1 a.1

instance decDateDescPair : DecidableRel dateDescPair :=
  fun a b => inferInstanceAs (Decidable (dateLex b.1 a.1))

/-- The per-date lists keyed by date, ordered as sorted(travel_data.keys(), reverse=True). -/
def sortedLedger (t : List DateContainer) : Except Unit (List (Date × List Activity)) :=
  (travelDataDict t).map (fun m => m.insertionSort dateDescPair)

/-- parse_travel_data: the OrderedDict from strftime-rendered date label to the
time-sorted activity list, dates descending. -/
def parse_travel_data (t : List DateContainer) : Except Unit (List (String × List Activity)) :=
  (sortedLedger t).map (fun m => m.map (fun p => (formatDate p.1, p.2)))

/-- Per-activity accumulation of calculate_totals: (total_top_up, total_fare_charged). -/
def weekAccum (acc : ℚ × ℚ) (a : Activity) : ℚ × ℚ :=
  if a.start_point = "Top Up" then (acc.1 + a.fare, acc.2) else (acc.1, acc.2 + a.fare)

/-- The entry loop of calculate_totals: re-parse each date label (ValueError when
one fails), include entries with date ≥ last_monday, and accumulate. -/
def calcTotalsAux : List (String × List Activity) → Date → ℚ × ℚ → Except Unit (ℚ × ℚ)
  | [], _, acc => .ok acc
  | (ds, acts) :: rest, m, acc =>
    match parseDate ds with
    | none => .error ()
    | some d => calcTotalsAux rest m (if dateLex m d then acts.foldl weekAccum acc else acc)

/-- calculate_totals(travel_dict, last_monday) = (total_top_up, total_fare_charged). -/
def calculate_totals (td : List (String × List Activity)) (last_monday : Date) :
    Except Unit (ℚ × ℚ) :=
  calcTotalsAux td last_monday (0, 0)

/-- Per-activity accumulation of get_daily_totals into the weekday bucket `wk`:
top-up fares as-is, other fares by absolute value. -/
def dayAccum (wk : String) (m : List (String × (ℚ × ℚ))) (a : Activity) :
    List (String × (ℚ × ℚ)) :=
  let cur := (dictFind m wk).getD (0, 0)
  if a.start_point = "Top Up" then dictSet m wk (cur.1 + a.fare, cur.2)
  else dictSet m wk (cur.1, cur.2 + |a.fare|)

/-- One included entry of get_daily_totals: create the weekday bucket when absent,
then accumulate every activity of the day. -/
def processDay (dt : List (String × (ℚ × ℚ))) (wk : String) (acts : List Activity) :
    List (String × (ℚ × ℚ)) :=
  let dt1 := if (dictFind dt wk).isSome then dt else dt ++ [(wk, (0, 0))]
  acts.foldl (dayAccum wk) dt1

/-- The entry loop of get_daily_totals: re-parse each label (ValueError when one
fails), skip dates before last_monday, and bucket by weekday name. -/
def getDailyAux : List (String × List Activity) → Date → List (String × (ℚ × ℚ)) →
    Except Unit (List (String × (ℚ × ℚ)))
  | [], _, dt => .ok dt
  | (ds, acts) :: rest, m, dt =>
    match parseDate ds with
    | none => .error ()
    | some d =>
      if dateLexLt d m then getDailyAux rest m dt
      else getDailyAux rest m (processDay dt (weekdayName (pyWeekday d)) acts)

/-- get_daily_totals(travel_dict, last_monday): weekday name ↦ (topup, fares). -/
def get_daily_totals (td : List (String × List Activity)) (last_monday : Date) :
    Except Unit (List (String × (ℚ × ℚ))) :=
  getDailyAux td last_monday []

/-- main's top-up computation: 50 - (balance - total_fare_charged), clamped at zero. -/
def topup_needed (balance total_fare_charged : ℚ) : ℚ :=
  let t := 50 - (balance - total_fare_charged)
  if t < 0 then 0 else t

/-! Claim-side definitions, written from the specification's wording, to be
compared with the functions above. -/

/-- Claim side: an entry is included in the weekly totals when its label re-parses
to a date on or after the week-start cutoff. -/
def includeEntry (m : Date) (p : String × List Activity) : Bool :=
  match parseDate p.1 with
  | some d => dateLeB m d
  | none => false

/-- Is the stored origin exactly "Top Up"? -/
def isTopUpAct (a : Activity) : Bool := decide (a.start_point = "Top Up")

/-- Sum of the fares of the top-up activities of a day. -/
def topUpFares (acts : List Activity) : ℚ := ((acts.filter isTopUpAct).map Activity.fare).sum

/-- Sum of the fares (raw sign) of the non-top-up activities of a day. -/
def otherFares (acts : List Activity) : ℚ :=
  ((acts.filter (fun a => !isTopUpAct a)).map Activity.fare).sum

/-- Sum of the absolute fares of the non-top-up activities of a day. -/
def otherAbsFares (acts : List Activity) : ℚ :=
  ((acts.filter (fun a => !isTopUpAct a)).map (fun a => |a.fare|)).sum

/-- Claim side (spec 4.3, totals): total top-up over the included entries. -/
def specTotalTopUp (td : List (String × List Activity)) (m : Date) : ℚ :=
  ((td.filter (includeEntry m)).map (fun p => topUpFares p.2)).sum

/-- Claim side (spec 4.3, totals): total fare charged, raw sign, over the included entries. -/
def specTotalFareCharged (td : List (String × List Activity)) (m : Date) : ℚ :=
  ((td.filter (includeEntry m)).map (fun p => otherFares p.2)).sum

/-- Claim side: does an entry's label re-parse to an included date of weekday `w`? -/
def entryWeekday (w : String) (p : String × List Activity) : Bool :=
  match parseDate p.1 with
  | some d => decide (weekdayName (pyWeekday d) = w)
  | none => false

/-- Claim side (spec 4.3, daily totals): top-up accumulator of weekday `w`. -/
def specDailyTopUp (td : List (String × List Activity)) (m : Date) (w : String) : ℚ :=
  ((td.filter (fun p => includeEntry m p && entryWeekday w p)).map (fun p => topUpFares p.2)).sum

/-- Claim side (spec 4.3, daily totals): absolute-valued fares accumulator of weekday `w`. -/
def specDailyFares (td : List (String × List Activity)) (m : Date) (w : String) : ℚ :=
  ((td.filter (fun p => includeEntry m p && entryWeekday w p)).map (fun p => otherAbsFares p.2)).sum

/-- Claim side: does some included entry fall on weekday `w`? -/
def weekdayPresent (td : List (String × List Activity)) (m : Date) (w : String) : Bool :=
  td.any (fun p => includeEntry m p && entryWeekday w p)

/-- How a weekday bucket's final value relates to its value in a starting dict:
the contributions (t, f) are added to an existing bucket, create the bucket when
some included entry needs it, and otherwise leave it absent. -/
def combineFind : Option (ℚ × ℚ) → Bool → ℚ → ℚ → Option (ℚ × ℚ)
  | some c, _, t, f => some (c.1 + t, c.2 + f)
  | none, true, t, f => some (t, f)
  | none, false, _, _ => none

/-! Concrete fixtures used by the witnesses below. -/

/-- A ledger with one in-week entry (Monday 2024-06-03: a 20.00 top-up and a
-4.50 fare) and one out-of-week entry (Saturday 2024-06-01). -/
def exTd : List (String × List Activity) :=
  [("Monday 03 Jun 2024",
    [⟨"07:00", "Top Up", "Opal Travel App", 20⟩, ⟨"08:15", "Home", "City", mkRat (-9) 2⟩]),
   ("Saturday 01 Jun 2024", [⟨"10:00", "Central", "Town Hall", -10⟩])]

/-- The week-start cutoff Monday 2024-06-03. -/
def exMonday : Date := ⟨2024, 6, 3⟩

/-- Three raw activities out of time order, two sharing the time 07:00. -/
def exRaw8 : List RawActivity :=
  [⟨some "08:15", some "Home", some "City", none⟩,
   ⟨some "07:00", some "Bus one", some "Stop X", none⟩,
   ⟨some "07:00", some "Bus two", some "Stop Y", none⟩]

/-- A one-day tree holding exRaw8. -/
def exTree8 : List DateContainer := [⟨some "Monday 03 Jun 2024", exRaw8⟩]

/-- exRaw8 as extracted, in document order. -/
def exActs8 : List Activity :=
  [⟨"08:15", "Home", "City", 0⟩, ⟨"07:00", "Bus one", "Stop X", 0⟩,
   ⟨"07:00", "Bus two", "Stop Y", 0⟩]

/-- exActs8 stably sorted by time. -/
def exSorted8 : List Activity :=
  [⟨"07:00", "Bus one", "Stop X", 0⟩, ⟨"07:00", "Bus two", "Stop Y", 0⟩,
   ⟨"08:15", "Home", "City", 0⟩]

/-- Two date groups whose labels parse to distinct dates, oldest first. -/
def exTree7 : List DateContainer :=
  [⟨some "Saturday 01 Jun 2024", []⟩, ⟨some "Monday 03 Jun 2024", []⟩]

/-- Two date groups with the same date label: the earlier one's activity is
discarded by the dict reset. -/
def exTree9 : List DateContainer :=
  [⟨some "Monday 03 Jun 2024", [⟨some "08:00", some "Old leg", some "Stop X", none⟩]⟩,
   ⟨some "Monday 03 Jun 2024", [⟨some "09:00", some "New leg", some "Stop Y", none⟩]⟩,
   ⟨some "Saturday 01 Jun 2024", []⟩]

end Opal

namespace Opal

/-! Helper lemmas. -/

theorem foldl_weekAccum (acts : List Activity) (tu fc : ℚ) :
    acts.foldl weekAccum (tu, fc) = (tu + topUpFares acts, fc + otherFares acts) := by
  induction acts generalizing tu fc with
  | nil => simp [topUpFares, otherFares]
  | cons a rest ih =>
    by_cases h : a.start_point = "Top Up" <;>
      simp [List.foldl_cons, weekAccum, h, ih, topUpFares, otherFares, isTopUpAct,
        List.filter_cons, add_assoc]

theorem calcTotalsAux_spec (td : List (String × List Activity)) (m : Date) (tu fc : ℚ)
    (h : ∀ p ∈ td, (parseDate p.1).isSome = true) :
    calcTotalsAux td m (tu, fc) =
      .ok (tu + specTotalTopUp td m, fc + specTotalFareCharged td m) := by
  induction td generalizing tu fc with
  | nil => simp [calcTotalsAux, specTotalTopUp, specTotalFareCharged]
  | cons p rest ih =>
    obtain ⟨ds, acts⟩ := p
    obtain ⟨d, hd⟩ := Option.isSome_iff_exists.mp (h _ (List.mem_cons_self _ _))
    have hrest : ∀ p ∈ rest, (parseDate p.1).isSome = true :=
      fun p hp => h p (List.mem_cons_of_mem _ hp)
    by_cases hm : dateLex m d
    · rw [show calcTotalsAux ((ds, acts) :: rest) m (tu, fc) =
          calcTotalsAux rest m (if dateLex m d then acts.foldl weekAccum (tu, fc) else (tu, fc))
        from by simp [calcTotalsAux, hd]]
      rw [if_pos hm, foldl_weekAccum, ih _ _ hrest]
      simp [specTotalTopUp, specTotalFareCharged, List.filter_cons, includeEntry, hd, dateLeB, hm,
        add_assoc]
    · rw [show calcTotalsAux ((ds, acts) :: rest) m (tu, fc) =
          calcTotalsAux rest m (if dateLex m d then acts.foldl weekAccum (tu, fc) else (tu, fc))
        from by simp [calcTotalsAux, hd]]
      rw [if_neg hm, ih _ _ hrest]
      simp [specTotalTopUp, specTotalFareCharged, List.filter_cons, includeEntry, hd, dateLeB, hm]

theorem buildDictAux_skip (c : DateContainer) (rest : List DateContainer)
    (acc : List (Date × List Activity)) (hd : containerDate c = none) :
    buildDictAux (c :: rest) acc = buildDictAux rest acc := by
  simp [buildDictAux, hd]

/-! Claim theorems. -/

/-- C1: for every current balance b and total fare charged f, main's computed
top-up amount equals max(0, 50 − (b − f)) where 50 is the (hard-coded) target
floor, and is in particular never negative. -/
theorem c1_topup_needed (b f : ℚ) :
    topup_needed b f = max 0 (50 - (b - f)) ∧ 0 ≤ topup_needed b f := by
  unfold topup_needed
  by_cases h : 50 - (b - f) < 0
  · simp only [if_pos h]
    exact ⟨(max_eq_left (le_of_lt h)).symm, le_refl 0⟩
  · simp only [if_neg h]
    exact ⟨(max_eq_right (not_lt.mp h)).symm, not_lt.mp h⟩

/-- C2 counterexample: an activity whose fare text is present but not parseable
as a float makes parse_travel_data raise ValueError (modelled as an error result)
instead of defaulting the fare to 0.0 — so the Entry Extractor can raise. -/
theorem c2_counterexample :
    parse_travel_data
      [⟨some "Monday 03 Jun 2024", [⟨some "08:15", some "Home", some "City", some "abc"⟩]⟩] =
      .error () := rfl

theorem buildDictAux_append (xs ys : List DateContainer) :
    ∀ acc, buildDictAux (xs ++ ys) acc =
      match buildDictAux xs acc with
      | .ok m => buildDictAux ys m
      | .error e => .error e := by
  induction xs with
  | nil => intro acc; rfl
  | cons c rest ih =>
    intro acc
    rcases hd : containerDate c with _ | d
    · rw [show (c :: rest) ++ ys = c :: (rest ++ ys) from rfl]
      rw [show buildDictAux (c :: (rest ++ ys)) acc = buildDictAux (rest ++ ys) acc from by
        simp [buildDictAux, hd]]
      rw [show buildDictAux (c :: rest) acc = buildDictAux rest acc from by
        simp [buildDictAux, hd]]
      exact ih acc
    · rcases hex : extractActivities c.activities with e | raw
      · rw [show (c :: rest) ++ ys = c :: (rest ++ ys) from rfl]
        rw [show buildDictAux (c :: (rest ++ ys)) acc = .error e from by
          simp [buildDictAux, hd, hex]]
        rw [show buildDictAux (c :: rest) acc = .error e from by
          simp [buildDictAux, hd, hex]]
      · rcases hs : pySortByTime raw with e | day
        · rw [show (c :: rest) ++ ys = c :: (rest ++ ys) from rfl]
          rw [show buildDictAux (c :: (rest ++ ys)) acc = .error e from by
            simp [buildDictAux, hd, hex, hs]]
          rw [show buildDictAux (c :: rest) acc = .error e from by
            simp [buildDictAux, hd, hex, hs]]
        · rw [show (c :: rest) ++ ys = c :: (rest ++ ys) from rfl]
          rw [show buildDictAux (c :: (rest ++ ys)) acc =
              buildDictAux (rest ++ ys) (dictSet acc d day) from by
            simp [buildDictAux, hd, hex, hs]]
          rw [show buildDictAux (c :: rest) acc = buildDictAux rest (dictSet acc d day) from by
            simp [buildDictAux, hd, hex, hs]]
          exact ih (dictSet acc d day)

theorem buildDictAux_append_ok (xs ys : List DateContainer)
    (acc m0 : List (Date × List Activity)) (h : buildDictAux xs acc = .ok m0) :
    buildDictAux (xs ++ ys) acc = buildDictAux ys m0 := by
  rw [buildDictAux_append xs ys acc, h]

/-- C2 (amended): a date label that fails to parse makes the whole group absent
from the output with no error; an absent time/origin/destination/fare field is
independently replaced by its default ("00:00", "Unknown", "Unknown", 0.0 — the
destination default is visible when the top-up rule does not overwrite it); but
a fare text that is present and unparseable raises an error instead of
defaulting, as does a present time text that strptime cannot parse, at the
per-day sort. -/
theorem c2_amended_defaults :
    (∀ (pre post : List DateContainer) (c : DateContainer), containerDate c = none →
        parse_travel_data (pre ++ c :: post) = parse_travel_data (pre ++ post)) ∧
    (∀ a act, extractActivity a = .ok act → a.timeText = none → act.time = "00:00") ∧
    (∀ a act, extractActivity a = .ok act → a.fromText = none → act.start_point = "Unknown") ∧
    (∀ a act, extractActivity a = .ok act → a.toText = none →
        strContainsSub (defaultStr a.fromText "Unknown") "Top up" = false →
        act.end_point = "Unknown") ∧
    (∀ a act, extractActivity a = .ok act → a.fareText = none → act.fare = 0) ∧
    (∀ a s, a.fareText = some s → pyFloat (removeDollar (pyStrip s)) = none →
        extractActivity a = .error ()) ∧
    (∀ (l : List Activity) (a : Activity), a ∈ l → parseTime a.time = none →
        pySortByTime l = .error ()) := by
  refine ⟨?_, ?_, ?_, ?_, ?_, ?_, ?_⟩
  · intro pre post c hd
    unfold parse_travel_data sortedLedger travelDataDict
    rw [buildDictAux_append pre (c :: post) [], buildDictAux_append pre post []]
    rcases hm : buildDictAux pre [] with e | m
    · simp only [hm]
    · simp only [hm]
      rw [buildDictAux_skip c post m hd]
  · intro a act hex ht
    rcases hfa : a.fareText with _ | fs
    · simp only [extractActivity, hfa, ht] at hex
      split at hex <;> (cases hex; rfl)
    · rcases hpf : pyFloat (removeDollar (pyStrip fs)) with _ | q
      · simp only [extractActivity, hfa, hpf] at hex
        cases hex
      · simp only [extractActivity, hfa, hpf, ht] at hex
        split at hex <;> (cases hex; rfl)
  · intro a act hex hf
    have hns : strContainsSub (defaultStr none "Unknown") "Top up" = false := by decide
    rcases hfa : a.fareText with _ | fs
    · simp only [extractActivity, hfa, hf, hns, Bool.false_eq_true, if_false] at hex
      cases hex; rfl
    · rcases hpf : pyFloat (removeDollar (pyStrip fs)) with _ | q
      · simp only [extractActivity, hfa, hpf] at hex
        cases hex
      · simp only [extractActivity, hfa, hpf, hf, hns, Bool.false_eq_true, if_false] at hex
        cases hex; rfl
  · intro a act hex ht hns
    rcases hfa : a.fareText with _ | fs
    · simp only [extractActivity, hfa, ht, hns, Bool.false_eq_true, if_false] at hex
      cases hex; rfl
    · rcases hpf : pyFloat (removeDollar (pyStrip fs)) with _ | q
      · simp only [extractActivity, hfa, hpf] at hex
        cases hex
      · simp only [extractActivity, hfa, hpf, ht, hns, Bool.false_eq_true, if_false] at hex
        cases hex; rfl
  · intro a act hex hf
    simp only [extractActivity, hf] at hex
    split at hex <;> (cases hex; rfl)
  · intro a s hf hpf
    simp only [extractActivity, hf, hpf]
  · intro l a hmem hpt
    unfold pySortByTime
    rw [if_neg]
    intro hall
    have hsome := List.all_eq_true.mp hall a hmem
    rw [hpt] at hsome
    cases hsome

/-- C2 witness: the unparseable date group "Sometime Last Week" is skipped with
no error; the all-fields-absent activity extracts to the all-defaults record;
an activity with fare text "zz" makes extraction raise. -/
theorem c2_amended_defaults_witness :
    parse_travel_data [⟨some "Sometime Last Week", []⟩] = parse_travel_data [] ∧
    (Activity.mk "00:00" "Unknown" "Unknown" 0).time = "00:00" ∧
    (Activity.mk "00:00" "Unknown" "Unknown" 0).start_point = "Unknown" ∧
    (Activity.mk "00:00" "Unknown" "Unknown" 0).fare = 0 ∧
    extractActivity ⟨some "08:15", some "Home", some "City", some "zz"⟩ = .error () ∧
    pySortByTime [⟨"25:00", "Home", "City", 0⟩] = .error () :=
  ⟨c2_amended_defaults.1 [] [] ⟨some "Sometime Last Week", []⟩ (by decide),
   c2_amended_defaults.2.1 ⟨none, none, none, none⟩ ⟨"00:00", "Unknown", "Unknown", 0⟩ rfl rfl,
   c2_amended_defaults.2.2.1 ⟨none, none, none, none⟩ ⟨"00:00", "Unknown", "Unknown", 0⟩ rfl rfl,
   c2_amended_defaults.2.2.2.2.1 ⟨none, none, none, none⟩ ⟨"00:00", "Unknown", "Unknown", 0⟩
     rfl rfl,
   c2_amended_defaults.2.2.2.2.2.1 ⟨some "08:15", some "Home", some "City", some "zz"⟩ "zz" rfl
     (by decide),
   c2_amended_defaults.2.2.2.2.2.2 _ ⟨"25:00", "Home", "City", 0⟩ (List.mem_singleton.mpr rfl)
     (by decide)⟩

/-- C3: for every ledger whose date labels all re-parse and every week-start
cutoff, calculate_totals includes exactly the entries with date ≥ the cutoff;
included activities with origin "Top Up" contribute their fare to total_top_up
and all others contribute their fare, raw sign kept, to total_fare_charged. -/
theorem c3_weekly_totals (td : List (String × List Activity)) (m : Date)
    (h : ∀ p ∈ td, (parseDate p.1).isSome = true) :
    calculate_totals td m = .ok (specTotalTopUp td m, specTotalFareCharged td m) := by
  have h0 := calcTotalsAux_spec td m 0 0 h
  simpa [calculate_totals] using h0

/-- C3 witness at a two-entry ledger (one in-week, one before the cutoff). -/
theorem c3_weekly_totals_witness :
    (∀ p ∈ exTd, (parseDate p.1).isSome = true) ∧
    calculate_totals exTd exMonday = .ok (specTotalTopUp exTd exMonday, specTotalFareCharged exTd exMonday) :=
  ⟨by decide, c3_weekly_totals exTd exMonday (by decide)⟩

/-- C5: an extracted activity whose (stripped) origin text contains the
case-sensitive substring "Top up" is stored with origin exactly "Top Up" and
destination exactly "Opal Travel App", whatever the original destination; an
activity without that substring keeps its extracted origin and destination. -/
theorem c5_normalization (a : RawActivity) (s : String) (act : Activity)
    (hf : a.fromText = some s) (hex : extractActivity a = .ok act) :
    (strContainsSub (pyStrip s) "Top up" = true →
      act.start_point = "Top Up" ∧ act.end_point = "Opal Travel App") ∧
    (strContainsSub (pyStrip s) "Top up" = false →
      act.start_point = pyStrip s ∧ act.end_point = defaultStr a.toText "Unknown") := by
  constructor <;> intro hc
  · rcases hfa : a.fareText with _ | fs
    · simp only [extractActivity, hfa, hf, defaultStr, hc, if_true] at hex
      cases hex; exact ⟨rfl, rfl⟩
    · rcases hpf : pyFloat (removeDollar (pyStrip fs)) with _ | q
      · simp only [extractActivity, hfa, hpf] at hex
        cases hex
      · simp only [extractActivity, hfa, hpf, hf, defaultStr, hc, if_true] at hex
        cases hex; exact ⟨rfl, rfl⟩
  · rcases hfa : a.fareText with _ | fs
    · simp only [extractActivity, hfa, hf, defaultStr, hc, Bool.false_eq_true, if_false] at hex
      cases hex; exact ⟨rfl, rfl⟩
    · rcases hpf : pyFloat (removeDollar (pyStrip fs)) with _ | q
      · simp only [extractActivity, hfa, hpf] at hex
        cases hex
      · simp only [extractActivity, hfa, hpf, hf, defaultStr, hc, Bool.false_eq_true,
          if_false] at hex
        cases hex; exact ⟨rfl, rfl⟩

/-- C5 witness: "Top up machine" is normalized; "Central" is kept unchanged. -/
theorem c5_normalization_witness :
    ((Activity.mk "10:00" "Top Up" "Opal Travel App" 0).start_point = "Top Up" ∧
     (Activity.mk "10:00" "Top Up" "Opal Travel App" 0).end_point = "Opal Travel App") ∧
    ((Activity.mk "10:00" "Central" "Town Hall" 0).start_point = pyStrip "Central" ∧
     (Activity.mk "10:00" "Central" "Town Hall" 0).end_point =
       defaultStr (some "Town Hall") "Unknown") :=
  ⟨(c5_normalization ⟨some "10:00", some "Top up machine", some "X", none⟩ "Top up machine"
      ⟨"10:00", "Top Up", "Opal Travel App", 0⟩ rfl rfl).1 (by decide),
   (c5_normalization ⟨some "10:00", some "Central", some "Town Hall", none⟩ "Central"
      ⟨"10:00", "Central", "Town Hall", 0⟩ rfl rfl).2 (by decide)⟩

theorem dictFind_dictSet_self {κ α : Type} [DecidableEq κ] (m : List (κ × α)) (k : κ) (v : α) :
    dictFind (dictSet m k v) k = some v := by
  induction m with
  | nil => simp [dictSet, dictFind]
  | cons p rest ih =>
    obtain ⟨k0, v0⟩ := p
    by_cases h : k0 = k
    · subst h; simp [dictSet, dictFind]
    · simp [dictSet, dictFind, h, ih]

theorem dictFind_dictSet_ne {κ α : Type} [DecidableEq κ] (m : List (κ × α)) (k k' : κ) (v : α)
    (h : k' ≠ k) : dictFind (dictSet m k v) k' = dictFind m k' := by
  induction m with
  | nil => simp [dictSet, dictFind, Ne.symm h]
  | cons p rest ih =>
    obtain ⟨k0, v0⟩ := p
    by_cases h0 : k0 = k
    · subst h0; simp [dictSet, dictFind, Ne.symm h]
    · simp only [dictSet, if_neg h0]
      by_cases h1 : k0 = k'
      · simp [dictFind, h1]
      · simp [dictFind, h1, ih]

theorem dictFind_append_self {κ α : Type} [DecidableEq κ] (m : List (κ × α)) (k : κ) (v : α)
    (h : dictFind m k = none) : dictFind (m ++ [(k, v)]) k = some v := by
  induction m with
  | nil => simp [dictFind]
  | cons p rest ih =>
    obtain ⟨k0, v0⟩ := p
    by_cases h0 : k0 = k
    · simp [dictFind, h0] at h
    · simp only [dictFind, if_neg h0] at h
      simp [dictFind, h0, ih h]

theorem dictFind_append_ne {κ α : Type} [DecidableEq κ] (m : List (κ × α)) (k k' : κ) (v : α)
    (h : k' ≠ k) : dictFind (m ++ [(k, v)]) k' = dictFind m k' := by
  induction m with
  | nil => simp [dictFind, Ne.symm h]
  | cons p rest ih =>
    obtain ⟨k0, v0⟩ := p
    by_cases h0 : k0 = k'
    · simp [dictFind, h0]
    · simp [dictFind, h0, ih]

theorem foldl_dayAccum_self (wk : String) (acts : List Activity) :
    ∀ (m : List (String × (ℚ × ℚ))) (c : ℚ × ℚ), dictFind m wk = some c →
      dictFind (acts.foldl (dayAccum wk) m) wk =
        some (c.1 + topUpFares acts, c.2 + otherAbsFares acts) := by
  induction acts with
  | nil =>
    intro m c h
    simp [h, topUpFares, otherAbsFares]
  | cons a rest ih =>
    intro m c h
    rw [List.foldl_cons]
    by_cases ht : a.start_point = "Top Up"
    · have hstep : dayAccum wk m a = dictSet m wk (c.1 + a.fare, c.2) := by
        simp [dayAccum, h, ht]
      rw [hstep, ih _ _ (dictFind_dictSet_self m wk _)]
      simp [topUpFares, otherAbsFares, isTopUpAct, ht, List.filter_cons, add_assoc]
    · have hstep : dayAccum wk m a = dictSet m wk (c.1, c.2 + |a.fare|) := by
        simp [dayAccum, h, ht]
      rw [hstep, ih _ _ (dictFind_dictSet_self m wk _)]
      simp [topUpFares, otherAbsFares, isTopUpAct, ht, List.filter_cons, add_assoc]

theorem foldl_dayAccum_ne (wk w' : String) (h : w' ≠ wk) (acts : List Activity) :
    ∀ m, dictFind (acts.foldl (dayAccum wk) m) w' = dictFind m w' := by
  induction acts with
  | nil => intro m; rfl
  | cons a rest ih =>
    intro m
    rw [List.foldl_cons, ih]
    by_cases ht : a.start_point = "Top Up" <;>
      simp [dayAccum, ht, dictFind_dictSet_ne _ _ _ _ h]

theorem processDay_find_self (dt : List (String × (ℚ × ℚ))) (wk : String) (acts : List Activity) :
    dictFind (processDay dt wk acts) wk =
      some (((dictFind dt wk).getD (0, 0)).1 + topUpFares acts,
            ((dictFind dt wk).getD (0, 0)).2 + otherAbsFares acts) := by
  unfold processDay
  rcases hf : dictFind dt wk with _ | c
  · simp only [hf, Option.isSome_none, Bool.false_eq_true, if_false, Option.getD_none]
    exact foldl_dayAccum_self wk acts _ (0, 0) (dictFind_append_self dt wk (0, 0) hf)
  · simp only [hf, Option.isSome_some, if_true, Option.getD_some]
    exact foldl_dayAccum_self wk acts dt c hf

theorem processDay_find_ne (dt : List (String × (ℚ × ℚ))) (wk : String) (acts : List Activity)
    (w' : String) (h : w' ≠ wk) : dictFind (processDay dt wk acts) w' = dictFind dt w' := by
  unfold processDay
  rw [foldl_dayAccum_ne wk w' h acts]
  split
  · rfl
  · exact dictFind_append_ne dt wk w' _ h

theorem dateLex_iff_not_lt (a b : Date) : dateLex a b ↔ ¬ dateLexLt b a := by
  unfold dateLex dateLexLt; omega

theorem getDailyAux_find (td : List (String × List Activity)) (m : Date) (w : String)
    (h : ∀ p ∈ td, (parseDate p.1).isSome = true) :
    ∀ (dt : List (String × (ℚ × ℚ))) (DT), getDailyAux td m dt = .ok DT →
      dictFind DT w =
        combineFind (dictFind dt w) (weekdayPresent td m w)
          (specDailyTopUp td m w) (specDailyFares td m w) := by
  induction td with
  | nil =>
    intro dt DT hok
    cases hok
    rcases hf : dictFind dt w with _ | c <;>
      simp [hf, combineFind, weekdayPresent, specDailyTopUp, specDailyFares]
  | cons p rest ih =>
    intro dt DT hok
    obtain ⟨ds, acts⟩ := p
    obtain ⟨d, hd⟩ := Option.isSome_iff_exists.mp (h _ (List.mem_cons_self _ _))
    have hrest : ∀ p ∈ rest, (parseDate p.1).isSome = true :=
      fun p hp => h p (List.mem_cons_of_mem _ hp)
    simp only [getDailyAux, hd] at hok
    by_cases hlt : dateLexLt d m
    · rw [if_pos hlt] at hok
      have hnge : ¬ dateLex m d := by rw [dateLex_iff_not_lt]; simpa using hlt
      have hspec := ih hrest dt DT hok
      simpa [weekdayPresent, specDailyTopUp, specDailyFares, List.filter_cons, List.any_cons,
        includeEntry, hd, dateLeB, hnge] using hspec
    · rw [if_neg hlt] at hok
      have hge : dateLex m d := (dateLex_iff_not_lt m d).mpr hlt
      by_cases hw : w = weekdayName (pyWeekday d)
      · have hspec := ih hrest _ DT hok
        rw [hspec, ← hw, processDay_find_self]
        rcases hf : dictFind dt w with _ | c <;>
          simp [hf, combineFind, weekdayPresent, specDailyTopUp, specDailyFares,
            List.filter_cons, List.any_cons, includeEntry, entryWeekday, hd, dateLeB, hge,
            hw.symm, add_assoc]
      · have hspec := ih hrest _ DT hok
        rw [hspec, processDay_find_ne _ _ _ _ hw]
        have hwf : entryWeekday w (ds, acts) = false := by
          simp [entryWeekday, hd]
          exact fun hh => hw hh.symm
        simp [weekdayPresent, specDailyTopUp, specDailyFares, List.filter_cons, List.any_cons,
          hwf, includeEntry, hd]

/-- C4: for every ledger whose date labels all re-parse and every cutoff, the
per-weekday totals cover exactly the entries with date ≥ the cutoff; in each
weekday bucket, activities with origin "Top Up" contribute their fare as-is to
topup, and every other activity contributes the absolute value of its fare to
fares — unlike the weekly total, which keeps the raw sign (see C3). -/
theorem c4_daily_totals (td : List (String × List Activity)) (m : Date)
    (h : ∀ p ∈ td, (parseDate p.1).isSome = true) (DT : List (String × (ℚ × ℚ)))
    (hDT : get_daily_totals td m = .ok DT) (w : String) :
    dictFind DT w =
      if weekdayPresent td m w then some (specDailyTopUp td m w, specDailyFares td m w)
      else none := by
  have h0 := getDailyAux_find td m w h [] DT (by simpa [get_daily_totals] using hDT)
  rw [h0]
  cases hb : weekdayPresent td m w <;> simp [combineFind, dictFind]

/-- C4 witness: the two-entry example ledger; its Monday bucket holds the top-up
as-is and the fare absolute-valued. -/
theorem c4_daily_totals_witness :
    (∀ p ∈ exTd, (parseDate p.1).isSome = true) ∧
    get_daily_totals exTd exMonday = .ok [("Monday", (20, 9 / 2))] ∧
    dictFind [("Monday", ((20 : ℚ), (9 / 2 : ℚ)))] "Monday" =
      (if weekdayPresent exTd exMonday "Monday" then
        some (specDailyTopUp exTd exMonday "Monday", specDailyFares exTd exMonday "Monday")
      else none) := by
  have h1 : parseDate "Monday 03 Jun 2024" = some ⟨2024, 6, 3⟩ := by decide
  have h2 : parseDate "Saturday 01 Jun 2024" = some ⟨2024, 6, 1⟩ := by decide
  have h3 : ¬ dateLexLt ⟨2024, 6, 3⟩ exMonday := by decide
  have h4 : dateLexLt ⟨2024, 6, 1⟩ exMonday := by decide
  have h5 : weekdayName (pyWeekday ⟨2024, 6, 3⟩) = "Monday" := by decide
  have hEval : get_daily_totals exTd exMonday = .ok [("Monday", (20, 9 / 2))] := by
    simp only [get_daily_totals, getDailyAux, exTd, h1, h2, if_neg h3, if_pos h4, h5,
      processDay, dictFind, Option.isSome_none, Bool.false_eq_true, if_false, List.nil_append,
      List.foldl_cons, List.foldl_nil, dayAccum, dictSet, Option.getD_some, if_pos, if_neg]
    rw [if_neg (show ¬ ("Home" = "Top Up") by decide)]
    norm_num [Rat.mkRat_eq_div, abs_of_nonneg]
  exact ⟨by decide, hEval, c4_daily_totals exTd exMonday (by decide) _ hEval "Monday"⟩

theorem filter_not_topup_nil (acts : List Activity)
    (h : ∀ a ∈ acts, a.start_point = "Top Up") :
    acts.filter (fun a => !isTopUpAct a) = [] := by
  rw [List.filter_eq_nil_iff]
  intro a ha
  simp [isTopUpAct, h a ha]

theorem foldl_dayAccum_singleton (wk : String) (acts : List Activity) :
    ∀ (c : ℚ × ℚ), acts.foldl (dayAccum wk) [(wk, c)] =
      [(wk, (c.1 + topUpFares acts, c.2 + otherAbsFares acts))] := by
  induction acts with
  | nil => intro c; simp [topUpFares, otherAbsFares]
  | cons a rest ih =>
    intro c
    rw [List.foldl_cons]
    by_cases ht : a.start_point = "Top Up"
    · have hstep : dayAccum wk [(wk, c)] a = [(wk, (c.1 + a.fare, c.2))] := by
        simp [dayAccum, dictFind, dictSet, ht]
      rw [hstep, ih]
      simp [topUpFares, otherAbsFares, isTopUpAct, ht, List.filter_cons, add_assoc]
    · have hstep : dayAccum wk [(wk, c)] a = [(wk, (c.1, c.2 + |a.fare|))] := by
        simp [dayAccum, dictFind, dictSet, ht]
      rw [hstep, ih]
      simp [topUpFares, otherAbsFares, isTopUpAct, ht, List.filter_cons, add_assoc]

instance : IsTotal (Date × List Activity) dateDescPair :=
  ⟨fun a b => by unfold dateDescPair dateLex; omega⟩

instance : IsTrans (Date × List Activity) dateDescPair :=
  ⟨fun a b c h1 h2 => by unfold dateDescPair dateLex at h1 h2 ⊢; omega⟩

instance : IsTotal Activity timeLe := ⟨fun a b => by unfold timeLe; omega⟩

instance : IsTrans Activity timeLe := ⟨fun a b c h1 h2 => by unfold timeLe at h1 h2 ⊢; omega⟩

theorem dateLexLt_of_lex_ne (a b : Date) (h1 : dateLex a b) (h2 : a ≠ b) : dateLexLt a b := by
  rcases a with ⟨y1, m1, d1⟩
  rcases b with ⟨y2, m2, d2⟩
  simp only [dateLex, dateLexLt] at h1 ⊢
  simp only [ne_eq, Date.mk.injEq, not_and] at h2
  by_cases hy : y1 = y2
  · by_cases hm : m1 = m2
    · have hd : ¬ d1 = d2 := fun hd => h2 hy hm hd
      omega
    · omega
  · omega

theorem dictSet_mem_of_mem {κ α : Type} [DecidableEq κ] (m : List (κ × α)) (k : κ) (v : α) :
    ∀ p ∈ dictSet m k v, p ∈ m ∨ p = (k, v) := by
  induction m with
  | nil =>
    intro p hp
    right
    simpa [dictSet] using hp
  | cons q rest ih =>
    obtain ⟨k0, v0⟩ := q
    intro p hp
    by_cases h0 : k0 = k
    · rw [show dictSet ((k0, v0) :: rest) k v = (k, v) :: rest from by simp [dictSet, h0]] at hp
      rcases List.mem_cons.mp hp with hp | hp
      · right; exact hp
      · left; exact List.mem_cons_of_mem _ hp
    · rw [show dictSet ((k0, v0) :: rest) k v = (k0, v0) :: dictSet rest k v from by
        simp [dictSet, h0]] at hp
      rcases List.mem_cons.mp hp with hp | hp
      · left; rw [hp]; exact List.mem_cons_self _ _
      · rcases ih p hp with h | h
        · left; exact List.mem_cons_of_mem _ h
        · right; exact h

theorem dictSet_keys_mem {κ α : Type} [DecidableEq κ] (m : List (κ × α)) (k : κ) (v : α) :
    ∀ x ∈ (dictSet m k v).map Prod.fst, x ∈ m.map Prod.fst ∨ x = k := by
  intro x hx
  obtain ⟨p, hp, hpx⟩ := List.mem_map.mp hx
  rcases dictSet_mem_of_mem m k v p hp with h | h
  · left
    rw [← hpx]
    exact List.mem_map_of_mem Prod.fst h
  · right
    rw [← hpx, h]

theorem dictSet_keys_nodup {κ α : Type} [DecidableEq κ] (m : List (κ × α)) (k : κ) (v : α)
    (h : (m.map Prod.fst).Nodup) : ((dictSet m k v).map Prod.fst).Nodup := by
  induction m with
  | nil => simp [dictSet]
  | cons p rest ih =>
    obtain ⟨k0, v0⟩ := p
    by_cases h0 : k0 = k
    · rw [show dictSet ((k0, v0) :: rest) k v = (k, v) :: rest from by simp [dictSet, h0]]
      rw [← h0]
      simpa using h
    · rw [show dictSet ((k0, v0) :: rest) k v = (k0, v0) :: dictSet rest k v from by
        simp [dictSet, h0]]
      simp only [List.map_cons, List.nodup_cons] at h ⊢
      obtain ⟨hk0, hrest⟩ := h
      refine ⟨?_, ih hrest⟩
      intro hmem
      rcases dictSet_keys_mem rest k v k0 hmem with hh | hh
      · exact hk0 hh
      · exact h0 hh

theorem dictFind_some_mem {κ α : Type} [DecidableEq κ] (m : List (κ × α)) (k : κ) (v : α)
    (h : dictFind m k = some v) : (k, v) ∈ m := by
  induction m with
  | nil => simp [dictFind] at h
  | cons p rest ih =>
    obtain ⟨k0, v0⟩ := p
    by_cases h0 : k0 = k
    · rw [show dictFind ((k0, v0) :: rest) k = some v0 from by simp [dictFind, h0]] at h
      have hv := Option.some.inj h
      rw [← h0, ← hv]
      exact List.mem_cons_self _ _
    · rw [show dictFind ((k0, v0) :: rest) k = dictFind rest k from by simp [dictFind, h0]] at h
      exact List.mem_cons_of_mem _ (ih h)

theorem dictFind_of_mem_nodup {κ α : Type} [DecidableEq κ] (m : List (κ × α)) (k : κ) (v : α)
    (hnd : (m.map Prod.fst).Nodup) (h : (k, v) ∈ m) : dictFind m k = some v := by
  induction m with
  | nil => simp at h
  | cons p rest ih =>
    obtain ⟨k0, v0⟩ := p
    simp only [List.map_cons, List.nodup_cons] at hnd
    obtain ⟨hk0, hrest⟩ := hnd
    rcases List.mem_cons.mp h with hp | hp
    · injection hp with hk hv
      rw [hk, hv]
      simp [dictFind]
    · have hk0k : ¬ k0 = k := by
        intro he
        rw [he] at hk0
        exact hk0 (by simpa using List.mem_map_of_mem Prod.fst hp)
      rw [show dictFind ((k0, v0) :: rest) k = dictFind rest k from by simp [dictFind, hk0k]]
      exact ih hrest hp

theorem buildDictAux_keys_nodup (cs : List DateContainer) :
    ∀ (acc m : List (Date × List Activity)), (acc.map Prod.fst).Nodup →
      buildDictAux cs acc = .ok m → (m.map Prod.fst).Nodup := by
  induction cs with
  | nil =>
    intro acc m h hok
    cases hok
    exact h
  | cons c rest ih =>
    intro acc m h hok
    rcases hd : containerDate c with _ | d
    · rw [show buildDictAux (c :: rest) acc = buildDictAux rest acc from by
        simp [buildDictAux, hd]] at hok
      exact ih acc m h hok
    · rcases hex : extractActivities c.activities with e | raw
      · rw [show buildDictAux (c :: rest) acc = .error e from by
          simp [buildDictAux, hd, hex]] at hok
        cases hok
      · rcases hs : pySortByTime raw with e | day
        · rw [show buildDictAux (c :: rest) acc = .error e from by
            simp [buildDictAux, hd, hex, hs]] at hok
          cases hok
        · rw [show buildDictAux (c :: rest) acc = buildDictAux rest (dictSet acc d day) from by
            simp [buildDictAux, hd, hex, hs]] at hok
          exact ih _ m (dictSet_keys_nodup acc d day h) hok

theorem pySortByTime_ok (l s : List Activity) (h : pySortByTime l = .ok s) :
    s = l.insertionSort timeLe := by
  unfold pySortByTime at h
  split at h
  · cases h; rfl
  · cases h

theorem buildDictAux_values_sorted (cs : List DateContainer) :
    ∀ (acc m : List (Date × List Activity)), buildDictAux cs acc = .ok m →
      (∀ p ∈ acc, p.2.Pairwise timeLe) → ∀ p ∈ m, p.2.Pairwise timeLe := by
  induction cs with
  | nil =>
    intro acc m hok h
    cases hok
    exact h
  | cons c rest ih =>
    intro acc m hok h
    rcases hd : containerDate c with _ | d
    · rw [show buildDictAux (c :: rest) acc = buildDictAux rest acc from by
        simp [buildDictAux, hd]] at hok
      exact ih acc m hok h
    · rcases hex : extractActivities c.activities with e | raw
      · rw [show buildDictAux (c :: rest) acc = .error e from by
          simp [buildDictAux, hd, hex]] at hok
        cases hok
      · rcases hs : pySortByTime raw with e | day
        · rw [show buildDictAux (c :: rest) acc = .error e from by
            simp [buildDictAux, hd, hex, hs]] at hok
          cases hok
        · rw [show buildDictAux (c :: rest) acc = buildDictAux rest (dictSet acc d day) from by
            simp [buildDictAux, hd, hex, hs]] at hok
          refine ih _ m hok ?_
          intro p hp
          rcases dictSet_mem_of_mem acc d day p hp with hmem | hmem
          · exact h p hmem
          · rw [hmem, pySortByTime_ok raw day hs]
            exact List.sorted_insertionSort timeLe raw

/-- C10: the raw origin "Top Up" does not contain the substring "Top up"
(case-sensitive), so the normalization rule does not fire for it and its
destination is kept as extracted; yet both aggregators classify such an
activity as a top-up, because they compare the stored origin with "Top Up". -/
theorem c10_topup_equality_vs_contains :
    strContainsSub "Top Up" "Top up" = false ∧
    (∀ a act, a.fromText = some "Top Up" → extractActivity a = .ok act →
      act.start_point = "Top Up" ∧ act.end_point = defaultStr a.toText "Unknown") ∧
    (∀ ds d acts m, parseDate ds = some d → dateLex m d →
      (∀ a ∈ acts, a.start_point = "Top Up") →
      calculate_totals [(ds, acts)] m = .ok (topUpFares acts, 0) ∧
      get_daily_totals [(ds, acts)] m =
        .ok [(weekdayName (pyWeekday d), (topUpFares acts, 0))]) := by
  refine ⟨by decide, ?_, ?_⟩
  · intro a act hf hex
    have hns : strContainsSub (pyStrip "Top Up") "Top up" = false := by decide
    rcases hfa : a.fareText with _ | fs
    · simp only [extractActivity, hfa, hf, defaultStr, hns, Bool.false_eq_true, if_false] at hex
      cases hex; exact ⟨rfl, rfl⟩
    · rcases hpf : pyFloat (removeDollar (pyStrip fs)) with _ | q
      · simp only [extractActivity, hfa, hpf] at hex
        cases hex
      · simp only [extractActivity, hfa, hpf, hf, defaultStr, hns, Bool.false_eq_true,
          if_false] at hex
        cases hex; exact ⟨rfl, rfl⟩
  · intro ds d acts m hd hge hall
    have hother : otherFares acts = 0 := by
      simp [otherFares, filter_not_topup_nil acts hall]
    have hotherAbs : otherAbsFares acts = 0 := by
      simp [otherAbsFares, filter_not_topup_nil acts hall]
    constructor
    · simp only [calculate_totals, calcTotalsAux, hd, if_pos hge, foldl_weekAccum, hother,
        zero_add, add_zero]
    · have hnlt : ¬ dateLexLt d m := by
        have := (dateLex_iff_not_lt m d).mp hge
        simpa using this
      simp only [get_daily_totals, getDailyAux, hd, if_neg hnlt, processDay, dictFind,
        Option.isSome_none, Bool.false_eq_true, if_false, List.nil_append,
        foldl_dayAccum_singleton, hotherAbs, zero_add, add_zero]

theorem natDigitsAux_zero (fuel : Nat) : natDigitsAux fuel 0 = [] := by
  cases fuel <;> rfl

theorem natDigitsAux_eq : ∀ (fuel n : Nat), n ≤ fuel → natDigitsAux fuel n = natDigitsAux n n := by
  intro fuel
  induction fuel using Nat.strong_induction_on with
  | _ fuel ih =>
    intro n hn
    rcases n with _ | m
    · rcases fuel with _ | f <;> rfl
    · rcases fuel with _ | f
      · omega
      · have hq : (m + 1) / 10 ≤ m := by omega
        calc natDigitsAux (f + 1) (m + 1)
            = natDigitsAux f ((m + 1) / 10) ++ [Nat.digitChar ((m + 1) % 10)] := rfl
          _ = natDigitsAux ((m + 1) / 10) ((m + 1) / 10) ++ [Nat.digitChar ((m + 1) % 10)] := by
              rw [ih f (by omega) _ (by omega)]
          _ = natDigitsAux m ((m + 1) / 10) ++ [Nat.digitChar ((m + 1) % 10)] := by
              rw [ih m (by omega) _ hq]
          _ = natDigitsAux (m + 1) (m + 1) := rfl

theorem natDigits_eq_of_pos (n : Nat) (hn : 0 < n) :
    natDigits n = natDigits (n / 10) ++ [Nat.digitChar (n % 10)] := by
  rcases n with _ | m
  · omega
  · show natDigitsAux (m + 1) (m + 1) = _
    have h1 : natDigitsAux (m + 1) (m + 1) =
        natDigitsAux m ((m + 1) / 10) ++ [Nat.digitChar ((m + 1) % 10)] := rfl
    rw [h1, natDigitsAux_eq m ((m + 1) / 10) (by omega)]
    rfl

theorem digitVal_digitChar (k : Nat) (h : k < 10) : digitVal (Nat.digitChar k) = k := by
  interval_cases k <;> rfl

theorem isDigitChar_digitChar (k : Nat) (h : k < 10) : isDigitChar (Nat.digitChar k) = true := by
  interval_cases k <;> rfl

theorem digitsToNat_append_singleton (l : List Char) (c : Char) :
    digitsToNat (l ++ [c]) = digitsToNat l * 10 + digitVal c := by
  simp [digitsToNat, List.foldl_append]

theorem digitsToNat_natDigits : ∀ n, digitsToNat (natDigits n) = n := by
  intro n
  induction n using Nat.strong_induction_on with
  | _ n ih =>
    rcases Nat.eq_zero_or_pos n with h0 | hp
    · subst h0; rfl
    · rw [natDigits_eq_of_pos n hp, digitsToNat_append_singleton,
        ih (n / 10) (Nat.div_lt_self hp (by norm_num)),
        digitVal_digitChar _ (Nat.mod_lt n (by norm_num))]
      omega

theorem natDigits_all_digit : ∀ n, (natDigits n).all isDigitChar = true := by
  intro n
  induction n using Nat.strong_induction_on with
  | _ n ih =>
    rcases Nat.eq_zero_or_pos n with h0 | hp
    · subst h0; rfl
    · rw [natDigits_eq_of_pos n hp, List.all_append]
      rw [ih (n / 10) (Nat.div_lt_self hp (by norm_num))]
      simp [isDigitChar_digitChar _ (Nat.mod_lt n (by norm_num))]

theorem natDigits_len1 (n : Nat) (h1 : 1 ≤ n) (h2 : n < 10) : (natDigits n).length = 1 := by
  rw [natDigits_eq_of_pos n h1, Nat.div_eq_of_lt h2]
  rfl

theorem natDigits_len2 (n : Nat) (h1 : 10 ≤ n) (h2 : n < 100) : (natDigits n).length = 2 := by
  rw [natDigits_eq_of_pos n (by omega), List.length_append,
    natDigits_len1 (n / 10) (by omega) (by omega)]
  rfl

theorem natDigits_len3 (n : Nat) (h1 : 100 ≤ n) (h2 : n < 1000) : (natDigits n).length = 3 := by
  rw [natDigits_eq_of_pos n (by omega), List.length_append,
    natDigits_len2 (n / 10) (by omega) (by omega)]
  rfl

theorem natDigits_len4 (n : Nat) (h1 : 1000 ≤ n) (h2 : n < 10000) : (natDigits n).length = 4 := by
  rw [natDigits_eq_of_pos n (by omega), List.length_append,
    natDigits_len3 (n / 10) (by omega) (by omega)]
  rfl

theorem natDigits_ne_nil (n : Nat) (h : 0 < n) : natDigits n ≠ [] := by
  rw [natDigits_eq_of_pos n h]
  simp

theorem daysInMonth_le_31 (y m : Nat) : daysInMonth y m ≤ 31 := by
  unfold daysInMonth
  split <;> try omega
  split <;> omega

theorem wsFree_of_all_digit (l : List Char) (h : l.all isDigitChar = true) :
    l.all (fun c => !isWsChar c) = true := by
  rw [List.all_eq_true] at h ⊢
  intro c hc
  have hd := h c hc
  simp [isDigitChar] at hd
  simp [isWsChar]
  omega

theorem headIsWs_append (l1 l2 : List Char) (h : l1 ≠ []) :
    headIsWs (l1 ++ l2) = headIsWs l1 := by
  cases l1 with
  | nil => exact absurd rfl h
  | cons c cs => rfl

theorem headIsWs_of_wsFree (l : List Char) (h : l.all (fun c => !isWsChar c) = true) :
    headIsWs l = false := by
  cases l with
  | nil => rfl
  | cons c cs =>
    have hc := (List.all_eq_true.mp h) c (List.mem_cons_self _ _)
    simp at hc
    simp [headIsWs, hc]

theorem headIsWs_reverse_of_wsFree (l : List Char) (h : l.all (fun c => !isWsChar c) = true) :
    headIsWs l.reverse = false := by
  apply headIsWs_of_wsFree
  rw [List.all_eq_true] at h ⊢
  intro c hc
  exact h c (List.mem_reverse.mp hc)

theorem splitWsAux_token (tok : List Char) :
    ∀ (cur rest : List Char), tok.all (fun c => !isWsChar c) = true →
      cur.reverse ++ tok ≠ [] →
      splitWsAux cur (tok ++ ' ' :: rest) = (cur.reverse ++ tok) :: splitWsAux [] rest := by
  induction tok with
  | nil =>
    intro cur rest _ hne
    have hcur : cur ≠ [] := by
      intro h0; apply hne; simp [h0]
    show splitWsAux cur (' ' :: rest) = _
    have hsp : isWsChar ' ' = true := rfl
    simp only [splitWsAux, hsp, if_true]
    rw [if_neg (by simpa [List.isEmpty_iff] using hcur)]
    simp
  | cons c cs ih =>
    intro cur rest hall hne
    have hc : isWsChar c = false := by
      have hmem := (List.all_eq_true.mp hall) c (List.mem_cons_self _ _)
      simpa using hmem
    have hcs : cs.all (fun x => !isWsChar x) = true := by
      rw [List.all_eq_true] at hall ⊢
      exact fun x hx => hall x (List.mem_cons_of_mem _ hx)
    show splitWsAux cur (c :: (cs ++ ' ' :: rest)) = _
    simp only [splitWsAux, hc, Bool.false_eq_true, if_false]
    rw [ih (c :: cur) rest hcs (by simp)]
    simp

theorem splitWsAux_final (tok : List Char) :
    ∀ (cur : List Char), tok.all (fun c => !isWsChar c) = true →
      cur.reverse ++ tok ≠ [] →
      splitWsAux cur tok = [cur.reverse ++ tok] := by
  induction tok with
  | nil =>
    intro cur _ hne
    have hcur : cur ≠ [] := by
      intro h0; apply hne; simp [h0]
    show splitWsAux cur [] = _
    simp only [splitWsAux]
    rw [if_neg (by simpa [List.isEmpty_iff] using hcur)]
    simp
  | cons c cs ih =>
    intro cur hall hne
    have hc : isWsChar c = false := by
      have hmem := (List.all_eq_true.mp hall) c (List.mem_cons_self _ _)
      simpa using hmem
    have hcs : cs.all (fun x => !isWsChar x) = true := by
      rw [List.all_eq_true] at hall ⊢
      exact fun x hx => hall x (List.mem_cons_of_mem _ hx)
    show splitWsAux cur (c :: cs) = _
    simp only [splitWsAux, hc, Bool.false_eq_true, if_false]
    rw [ih (c :: cur) hcs (by simp)]
    simp

theorem weekdayName_wsFree (n : Nat) :
    (weekdayName n).data.all (fun c => !isWsChar c) = true ∧ (weekdayName n).data ≠ [] := by
  rcases n with _|_|_|_|_|_|k
  · decide
  · decide
  · decide
  · decide
  · decide
  · decide
  · rw [show weekdayName (k + 1 + 1 + 1 + 1 + 1 + 1) = "Sunday" from rfl]
    decide

theorem weekdayName_matches (n : Nat) :
    weekdayNames.any (fun nm => matchesName (weekdayName n).data nm) = true := by
  rcases n with _|_|_|_|_|_|k
  · decide
  · decide
  · decide
  · decide
  · decide
  · decide
  · rw [show weekdayName (k + 1 + 1 + 1 + 1 + 1 + 1) = "Sunday" from rfl]
    decide

theorem monthAbbrev_wsFree (m : Nat) (h1 : 1 ≤ m) (h2 : m ≤ 12) :
    (monthAbbrev m).data.all (fun c => !isWsChar c) = true ∧ (monthAbbrev m).data ≠ [] := by
  interval_cases m <;> decide

theorem findIdx_monthAbbrev (m : Nat) (h1 : 1 ≤ m) (h2 : m ≤ 12) :
    findNameIdx monthAbbrevs 1 (monthAbbrev m).data = some m := by
  interval_cases m <;> decide

theorem digitsToNat_cons_zero (l : List Char) : digitsToNat ('0' :: l) = digitsToNat l := rfl

theorem twoDigitChars_all_digit (n : Nat) : (twoDigitChars n).all isDigitChar = true := by
  unfold twoDigitChars
  split
  · simp [List.all_cons, natDigits_all_digit n, isDigitChar]
  · exact natDigits_all_digit n

theorem parseDayTok_twoDigit (n : Nat) (h1 : 1 ≤ n) (h2 : n ≤ 31) :
    parseDayTok (twoDigitChars n) = some n := by
  have hval2 : digitsToNat (natDigits n) = n := digitsToNat_natDigits n
  by_cases hlt : n < 10
  · have htok : twoDigitChars n = '0' :: natDigits n := if_pos hlt
    rw [htok]
    have hall : ('0' :: natDigits n).all isDigitChar = true := by
      simp [List.all_cons, natDigits_all_digit n, isDigitChar]
    have hlen : ('0' :: natDigits n).length = 2 := by
      simp [natDigits_len1 n h1 hlt]
    have hval : digitsToNat ('0' :: natDigits n) = n := by
      rw [digitsToNat_cons_zero, hval2]
    unfold parseDayTok
    rw [if_pos ⟨hall, Or.inr hlen⟩, if_pos (by rw [hval]; exact ⟨h1, h2⟩), hval]
  · have htok : twoDigitChars n = natDigits n := if_neg hlt
    rw [htok]
    have hlen : (natDigits n).length = 2 := natDigits_len2 n (by omega) (by omega)
    unfold parseDayTok
    rw [if_pos ⟨natDigits_all_digit n, Or.inr hlen⟩, if_pos (by rw [hval2]; exact ⟨h1, h2⟩),
      hval2]

theorem parseYearTok_natDigits (y : Nat) (h1 : 1000 ≤ y) (h2 : y ≤ 9999) :
    parseYearTok (natDigits y) = some y := by
  unfold parseYearTok
  rw [if_pos ⟨natDigits_all_digit y, natDigits_len4 y h1 (by omega)⟩, digitsToNat_natDigits]

theorem twoDigitChars_ne_nil (n : Nat) (_h : 1 ≤ n) : twoDigitChars n ≠ [] := by
  unfold twoDigitChars
  split
  · simp
  · exact natDigits_ne_nil n (by omega)

theorem splitWs_formatDate (d : Date) (h1 : 1 ≤ d.day) (_h2 : d.day ≤ 31)
    (h3 : 1 ≤ d.month) (h4 : d.month ≤ 12) (h5 : 1 ≤ d.year) :
    splitWs (formatDateChars d) =
      [(weekdayName (pyWeekday d)).data, twoDigitChars d.day, (monthAbbrev d.month).data,
       natDigits d.year] := by
  obtain ⟨hw1, hw2⟩ := weekdayName_wsFree (pyWeekday d)
  obtain ⟨hm1, hm2⟩ := monthAbbrev_wsFree d.month h3 h4
  have hdall : (twoDigitChars d.day).all (fun c => !isWsChar c) = true :=
    wsFree_of_all_digit _ (twoDigitChars_all_digit d.day)
  have hdne : twoDigitChars d.day ≠ [] := twoDigitChars_ne_nil d.day h1
  have hyall : (natDigits d.year).all (fun c => !isWsChar c) = true :=
    wsFree_of_all_digit _ (natDigits_all_digit d.year)
  have hyne : natDigits d.year ≠ [] := natDigits_ne_nil d.year (by omega)
  unfold splitWs formatDateChars
  rw [splitWsAux_token _ [] _ hw1 (by simpa using hw2)]
  rw [splitWsAux_token _ [] _ hdall (by simpa using hdne)]
  rw [splitWsAux_token _ [] _ hm1 (by simpa using hm2)]
  rw [splitWsAux_final _ [] hyall (by simpa using hyne)]
  simp

theorem formatDateChars_split_lastTok (d : Date) :
    formatDateChars d =
      ((weekdayName (pyWeekday d)).data ++ ' ' :: twoDigitChars d.day ++
        ' ' :: (monthAbbrev d.month).data ++ [' ']) ++ natDigits d.year := by
  simp [formatDateChars, List.append_assoc]

/-- C6 counterexample: 0999-01-01 is a representable date — the pipeline itself
builds it from the parseable label "Monday 01 Jan 0999" — but %Y renders its
year unpadded as "999", which the four-digit %Y directive cannot re-parse, so
the format/parse round trip fails on this valid date. -/
theorem c6_counterexample :
    (Date.mk 999 1 1).validB = true ∧
    parseDate "Monday 01 Jan 0999" = some ⟨999, 1, 1⟩ ∧
    parseDate (formatDate ⟨999, 1, 1⟩) ≠ some ⟨999, 1, 1⟩ := by
  decide

/-- C6 (amended): formatting a date with "%A %d %b %Y" and re-parsing the label
with the same format yields the identical date for every valid date whose year
has four digits (1000–9999); ledger keys for such dates therefore always
re-parse in the aggregator.  (For years below 1000 the unpadded %Y output is
not re-parseable; see the counterexample.) -/
theorem c6_amended_roundtrip (d : Date) (hv : d.validB = true) (hy : 1000 ≤ d.year) :
    parseDate (formatDate d) = some d := by
  have hprops := of_decide_eq_true hv
  obtain ⟨hy1, hy2, hm1, hm2, hd1, hd2⟩ := hprops
  have hd31 : d.day ≤ 31 := le_trans hd2 (daysInMonth_le_31 d.year d.month)
  obtain ⟨hw1, hw2⟩ := weekdayName_wsFree (pyWeekday d)
  have hn1 : headIsWs (formatDateChars d) = false := by
    unfold formatDateChars
    rw [headIsWs_append _ _ hw2]
    exact headIsWs_of_wsFree _ hw1
  have hn2 : headIsWs (formatDateChars d).reverse = false := by
    rw [formatDateChars_split_lastTok d, List.reverse_append]
    rw [headIsWs_append _ _ (by simpa using natDigits_ne_nil d.year (by omega))]
    exact headIsWs_reverse_of_wsFree _ (wsFree_of_all_digit _ (natDigits_all_digit d.year))
  show parseDateChars (formatDateChars d) = some d
  unfold parseDateChars
  rw [if_neg (by simp [hn1, hn2])]
  rw [splitWs_formatDate d hd1 hd31 hm1 hm2 hy1]
  simp only [weekdayName_matches, if_true, parseDayTok_twoDigit d.day hd1 hd31,
    findIdx_monthAbbrev d.month hm1 hm2, parseYearTok_natDigits d.year hy hy2]
  rw [if_pos ⟨hy1, hd2⟩]

/-- C6 witness: the round trip at 2024-06-03. -/
theorem c6_amended_roundtrip_witness :
    (Date.mk 2024 6 3).validB = true ∧ 1000 ≤ (Date.mk 2024 6 3).year ∧
    parseDate (formatDate ⟨2024, 6, 3⟩) = some ⟨2024, 6, 3⟩ :=
  ⟨by decide, by decide, c6_amended_roundtrip ⟨2024, 6, 3⟩ (by decide) (by decide)⟩

/-- C10 witness: an activity extracted with raw origin exactly "Top Up" keeps its
destination, and a day of such activities lands entirely in the top-up totals. -/
theorem c10_topup_equality_vs_contains_witness :
    ((Activity.mk "09:00" "Top Up" "Central" 0).start_point = "Top Up" ∧
     (Activity.mk "09:00" "Top Up" "Central" 0).end_point =
       defaultStr (some "Central") "Unknown") ∧
    calculate_totals [("Monday 03 Jun 2024", [⟨"09:00", "Top Up", "Central", 20⟩])] exMonday =
      .ok (topUpFares [⟨"09:00", "Top Up", "Central", 20⟩], 0) ∧
    get_daily_totals [("Monday 03 Jun 2024", [⟨"09:00", "Top Up", "Central", 20⟩])] exMonday =
      .ok [(weekdayName (pyWeekday ⟨2024, 6, 3⟩), (topUpFares [⟨"09:00", "Top Up", "Central", 20⟩], 0))] := by
  refine ⟨c10_topup_equality_vs_contains.2.1 ⟨some "09:00", some "Top Up", some "Central", none⟩
    ⟨"09:00", "Top Up", "Central", 0⟩ rfl rfl, ?_, ?_⟩
  · exact (c10_topup_equality_vs_contains.2.2 "Monday 03 Jun 2024" ⟨2024, 6, 3⟩
      [⟨"09:00", "Top Up", "Central", 20⟩] exMonday (by decide) (by decide) (by decide)).1
  · exact (c10_topup_equality_vs_contains.2.2 "Monday 03 Jun 2024" ⟨2024, 6, 3⟩
      [⟨"09:00", "Top Up", "Central", 20⟩] exMonday (by decide) (by decide) (by decide)).2

theorem sortedLedger_ok (t : List DateContainer) (L : List (Date × List Activity))
    (h : sortedLedger t = .ok L) :
    ∃ m, travelDataDict t = .ok m ∧ L = m.insertionSort dateDescPair := by
  rcases hm : travelDataDict t with e | m
  · rw [sortedLedger, hm] at h
    simp [Except.map] at h
  · rw [sortedLedger, hm] at h
    simp only [Except.map] at h
    exact ⟨m, rfl, (Except.ok.inj h).symm⟩

/-- C7: the date-keyed ledger is strictly descending by calendar date — for any
two distinct dates present, the later one appears first — and parse_travel_data
renders exactly this order with formatted labels. -/
theorem c7_dates_descending (t : List DateContainer) (L : List (Date × List Activity))
    (h : sortedLedger t = .ok L) :
    L.Pairwise (fun a b => dateLexLt b.1 a.1) ∧
    parse_travel_data t = .ok (L.map (fun p => (formatDate p.1, p.2))) := by
  obtain ⟨m, hm, hLm⟩ := sortedLedger_ok t L h
  constructor
  · have hsorted : (m.insertionSort dateDescPair).Pairwise dateDescPair :=
      List.sorted_insertionSort dateDescPair m
    have hnd : (m.map Prod.fst).Nodup := buildDictAux_keys_nodup t [] m (by simp) hm
    have hperm : List.Perm (m.insertionSort dateDescPair) m :=
      List.perm_insertionSort dateDescPair m
    have hnd2 : ((m.insertionSort dateDescPair).map Prod.fst).Nodup :=
      (List.Perm.nodup_iff (hperm.map Prod.fst)).mpr hnd
    have hpne : (m.insertionSort dateDescPair).Pairwise (fun a b => a.1 ≠ b.1) :=
      (List.pairwise_map).mp (hnd2 : List.Pairwise (· ≠ ·) _)
    rw [hLm]
    refine (hsorted.and hpne).imp ?_
    rintro a b ⟨h1, h2⟩
    exact dateLexLt_of_lex_ne b.1 a.1 h1 (fun he => h2 he.symm)
  · rw [parse_travel_data, h]
    rfl

/-- C7 witness: two dates, oldest first in the input, newest first in the ledger. -/
theorem c7_dates_descending_witness :
    sortedLedger exTree7 = .ok [(⟨2024, 6, 3⟩, []), (⟨2024, 6, 1⟩, [])] ∧
    List.Pairwise (fun a b => dateLexLt b.1 a.1)
      [((⟨2024, 6, 3⟩ : Date), ([] : List Activity)), (⟨2024, 6, 1⟩, [])] ∧
    parse_travel_data exTree7 =
      .ok [("Monday 03 Jun 2024", []), ("Saturday 01 Jun 2024", [])] := by
  have h : sortedLedger exTree7 = .ok [(⟨2024, 6, 3⟩, []), (⟨2024, 6, 1⟩, [])] := rfl
  refine ⟨h, (c7_dates_descending exTree7 _ h).1, ?_⟩
  rw [(c7_dates_descending exTree7 _ h).2]
  rfl

/-- C8: within every day of the output ledger, activities are in non-decreasing
time order; the per-day sort is a stable ascending sort by parsed time — among
activities of equal time the original document order is preserved. -/
theorem c8_intraday_sort (t : List DateContainer) (L : List (String × List Activity))
    (hL : parse_travel_data t = .ok L) (l s : List Activity) (hs : pySortByTime l = .ok s) :
    (∀ p ∈ L, p.2.Pairwise timeLe) ∧ s.Pairwise timeLe ∧
    (∀ tv : Nat, s.filter (fun a => timeKey a == tv) = l.filter (fun a => timeKey a == tv)) := by
  refine ⟨?_, ?_, ?_⟩
  · rcases hm : sortedLedger t with e | m
    · rw [parse_travel_data, hm] at hL
      simp [Except.map] at hL
    · rw [parse_travel_data, hm] at hL
      simp only [Except.map] at hL
      have hML := Except.ok.inj hL
      obtain ⟨m0, hm0, hmm⟩ := sortedLedger_ok t m hm
      intro p hp
      rw [← hML] at hp
      obtain ⟨q, hq, hqp⟩ := List.mem_map.mp hp
      rw [← hqp]
      have hq0 : q ∈ m0 := by
        rw [hmm] at hq
        exact (List.perm_insertionSort dateDescPair m0).mem_iff.mp hq
      exact buildDictAux_values_sorted t [] m0 hm0 (by simp) q hq0
  · rw [pySortByTime_ok l s hs]
    exact List.sorted_insertionSort timeLe l
  · intro tv
    rw [pySortByTime_ok l s hs]
    have hApw : (l.filter (fun a => timeKey a == tv)).Pairwise timeLe := by
      apply List.pairwise_of_forall_mem_list
      intro a ha b hb
      have ha2 : timeKey a = tv := by simpa using (List.mem_filter.mp ha).2
      have hb2 : timeKey b = tv := by simpa using (List.mem_filter.mp hb).2
      unfold timeLe
      omega
    have hsub : List.Sublist (l.filter (fun a => timeKey a == tv)) (l.insertionSort timeLe) :=
      List.sublist_insertionSort hApw (List.filter_sublist l)
    have h0 : (l.filter (fun a => timeKey a == tv)).filter (fun a => timeKey a == tv) =
        l.filter (fun a => timeKey a == tv) := by
      rw [List.filter_eq_self]
      exact fun a ha => (List.mem_filter.mp ha).2
    have hsub2 : List.Sublist (l.filter (fun a => timeKey a == tv))
        ((l.insertionSort timeLe).filter (fun a => timeKey a == tv)) := by
      rw [← h0]
      exact hsub.filter (fun a => timeKey a == tv)
    have hlen : ((l.insertionSort timeLe).filter (fun a => timeKey a == tv)).length =
        (l.filter (fun a => timeKey a == tv)).length :=
      ((List.perm_insertionSort timeLe l).filter (fun a => timeKey a == tv)).length_eq
    exact (hsub2.eq_of_length hlen.symm).symm

/-- C8 witness: a day with times 08:15, 07:00, 07:00 sorts to 07:00, 07:00,
08:15 with the two 07:00 activities in document order. -/
theorem c8_intraday_sort_witness :
    parse_travel_data exTree8 = .ok [("Monday 03 Jun 2024", exSorted8)] ∧
    pySortByTime exActs8 = .ok exSorted8 ∧
    exSorted8.Pairwise timeLe ∧
    exSorted8.filter (fun a => timeKey a == 420) =
      exActs8.filter (fun a => timeKey a == 420) := by
  have hL : parse_travel_data exTree8 = .ok [("Monday 03 Jun 2024", exSorted8)] := rfl
  have hs : pySortByTime exActs8 = .ok exSorted8 := rfl
  exact ⟨hL, hs, (c8_intraday_sort exTree8 _ hL exActs8 exSorted8 hs).2.1,
    (c8_intraday_sort exTree8 _ hL exActs8 exSorted8 hs).2.2 420⟩

theorem buildDictAux_find_preserved (d : Date) :
    ∀ (cs : List DateContainer), (∀ c ∈ cs, containerDate c ≠ some d) →
      ∀ acc m, buildDictAux cs acc = .ok m → dictFind m d = dictFind acc d := by
  intro cs
  induction cs with
  | nil =>
    intro _ acc m hok
    cases hok
    rfl
  | cons c rest ih =>
    intro hcs acc m hok
    have hrest : ∀ c' ∈ rest, containerDate c' ≠ some d :=
      fun c' hc' => hcs c' (List.mem_cons_of_mem _ hc')
    rcases hd0 : containerDate c with _ | d0
    · rw [show buildDictAux (c :: rest) acc = buildDictAux rest acc from by
        simp [buildDictAux, hd0]] at hok
      exact ih hrest acc m hok
    · have hne : ¬ d = d0 := by
        intro he
        exact hcs c (List.mem_cons_self _ _) (by rw [hd0, he])
      rcases hex : extractActivities c.activities with e | raw
      · rw [show buildDictAux (c :: rest) acc = .error e from by
          simp [buildDictAux, hd0, hex]] at hok
        cases hok
      · rcases hs : pySortByTime raw with e | day
        · rw [show buildDictAux (c :: rest) acc = .error e from by
            simp [buildDictAux, hd0, hex, hs]] at hok
          cases hok
        · rw [show buildDictAux (c :: rest) acc = buildDictAux rest (dictSet acc d0 day) from by
            simp [buildDictAux, hd0, hex, hs]] at hok
          rw [ih hrest _ m hok]
          exact dictFind_dictSet_ne acc d0 d day hne

/-- C9: when several date groups parse to the same calendar date, the ledger
entry for that date holds exactly the (time-sorted) activities of the last such
group in document order; activities of earlier same-date groups are discarded
by the per-group reset of the accumulator. -/
theorem c9_duplicate_date_last_wins (pre post : List DateContainer) (c : DateContainer)
    (d : Date) (raw day : List Activity) (L : List (Date × List Activity))
    (hd : containerDate c = some d)
    (hpost : ∀ c' ∈ post, containerDate c' ≠ some d)
    (hex : extractActivities c.activities = .ok raw)
    (hs : pySortByTime raw = .ok day)
    (hL : sortedLedger (pre ++ c :: post) = .ok L) :
    (d, day) ∈ L ∧ ∀ v, (d, v) ∈ L → v = day := by
  obtain ⟨m, hm, hLm⟩ := sortedLedger_ok (pre ++ c :: post) L hL
  have hm' : buildDictAux (pre ++ c :: post) [] = .ok m := hm
  rcases hm0 : buildDictAux pre [] with e | m0
  · rw [buildDictAux_append pre (c :: post) [], hm0] at hm'
    cases hm'
  · rw [buildDictAux_append_ok pre (c :: post) [] m0 hm0] at hm'
    rw [show buildDictAux (c :: post) m0 = buildDictAux post (dictSet m0 d day) from by
      simp [buildDictAux, hd, hex, hs]] at hm'
    have hfind : dictFind m d = some day := by
      rw [buildDictAux_find_preserved d post hpost _ m hm']
      exact dictFind_dictSet_self m0 d day
    have hnd0 : (m0.map Prod.fst).Nodup := buildDictAux_keys_nodup pre [] m0 (by simp) hm0
    have hnd : (m.map Prod.fst).Nodup :=
      buildDictAux_keys_nodup post (dictSet m0 d day) m (dictSet_keys_nodup m0 d day hnd0) hm'
    have hperm : List.Perm L m := by
      rw [hLm]
      exact List.perm_insertionSort dateDescPair m
    constructor
    · exact hperm.mem_iff.mpr (dictFind_some_mem m d day hfind)
    · intro v hv
      have hvm : (d, v) ∈ m := hperm.mem_iff.mp hv
      have hfv := dictFind_of_mem_nodup m d v hnd hvm
      rw [hfind] at hfv
      exact (Option.some.inj hfv).symm

/-- C9 witness: two groups labelled "Monday 03 Jun 2024" followed by a Saturday
group; the Monday entry keeps only the second Monday group's activity. -/
theorem c9_duplicate_date_last_wins_witness :
    sortedLedger exTree9 =
      .ok [(⟨2024, 6, 3⟩, [⟨"09:00", "New leg", "Stop Y", 0⟩]), (⟨2024, 6, 1⟩, [])] ∧
    ((⟨2024, 6, 3⟩ : Date), [(⟨"09:00", "New leg", "Stop Y", 0⟩ : Activity)]) ∈
      [((⟨2024, 6, 3⟩ : Date), [(⟨"09:00", "New leg", "Stop Y", 0⟩ : Activity)]),
       (⟨2024, 6, 1⟩, [])] ∧
    ∀ v, ((⟨2024, 6, 3⟩ : Date), v) ∈
        [((⟨2024, 6, 3⟩ : Date), [(⟨"09:00", "New leg", "Stop Y", 0⟩ : Activity)]),
         (⟨2024, 6, 1⟩, [])] →
      v = [(⟨"09:00", "New leg", "Stop Y", 0⟩ : Activity)] := by
  have hL : sortedLedger exTree9 =
      .ok [(⟨2024, 6, 3⟩, [⟨"09:00", "New leg", "Stop Y", 0⟩]), (⟨2024, 6, 1⟩, [])] := rfl
  have h9 := c9_duplicate_date_last_wins
    [⟨some "Monday 03 Jun 2024", [⟨some "08:00", some "Old leg", some "Stop X", none⟩]⟩]
    [⟨some "Saturday 01 Jun 2024", []⟩]
    ⟨some "Monday 03 Jun 2024", [⟨some "09:00", some "New leg", some "Stop Y", none⟩]⟩
    ⟨2024, 6, 3⟩ [⟨"09:00", "New leg", "Stop Y", 0⟩] [⟨"09:00", "New leg", "Stop Y", 0⟩]
    [(⟨2024, 6, 3⟩, [⟨"09:00", "New leg", "Stop Y", 0⟩]), (⟨2024, 6, 1⟩, [])]
    (by decide) (by decide) rfl rfl hL
  exact ⟨hL, h9.1, h9.2⟩

end Opal
